import Mathlib

/-!
Verification of the installation and state-tracking subsystem of an
AI-assistant configuration scaffolder (assistant registry, content catalog
validation, lock store, installer and bridge generator).

The TypeScript sources are embedded shallowly: pure functions become Lean
functions, the Node.js filesystem and `JSON.parse` boundaries become explicit
state parameters, and the module-level environment (the user's home
directory) becomes an explicit argument.  JavaScript strings are modelled by
Lean `String` (the code only manipulates plain text); JavaScript objects
used as string-keyed maps are modelled by association lists with JS-object
update semantics (update in place, insert at the end, first match wins).
-/

/-! ## Node.js `path.posix` model

`path.join` concatenates its non-empty arguments with `/` and normalizes the
result; an absolute second argument is NOT treated specially (unlike
`path.resolve`), so `path.join("/repo", "/home/u/.ai") = "/repo/home/u/.ai"`.
The segment normalization below follows `path.posix.normalize`: empty and
`.` segments are dropped, `..` pops the previous segment (kept literally at
the front of a relative path, dropped at the root of an absolute one).
-/

/-- Split a character list into `/`-separated segments (as `"a/b".split("/")`
would, keeping empty segments for the normalizer to drop). -/
def splitSegs : List Char → List Char → List String
  | cur, [] => [String.mk cur.reverse]
  | cur, c :: cs =>
    if c = '/' then String.mk cur.reverse :: splitSegs [] cs
    else splitSegs (c :: cur) cs

/-- Resolve `.` and `..` segments as Node's `normalizeString` does:
`allowAboveRoot` (true for relative paths) keeps leading `..` segments. -/
def normSegs (allowAboveRoot : Bool) (segs : List String) : List String :=
  (segs.foldl (fun acc seg =>
    if seg = "" ∨ seg = "." then acc
    else if seg = ".." then
      match acc with
      | [] => if allowAboveRoot then [".."] else []
      | a :: rest => if a = ".." then seg :: a :: rest else rest
    else seg :: acc) []).reverse

/-- True when the path starts with `/`. -/
def isAbsolutePath (p : String) : Bool :=
  match p.data with
  | '/' :: _ => true
  | _ => false

/-- True when the path ends with `/`. -/
def hasTrailingSlash (p : String) : Bool :=
  match p.data.getLast? with
  | some '/' => true
  | _ => false

/-- Node's `path.posix.normalize`. -/
def pathNormalize (p : String) : String :=
  if p = "" then "." else
  let isAbs := isAbsolutePath p
  let trailing := hasTrailingSlash p
  let norm := String.intercalate "/" (normSegs (!isAbs) (splitSegs [] p.data))
  let norm := if norm = "" ∧ ¬ (isAbs = true) then "." else norm
  let norm := if norm ≠ "" ∧ trailing = true then norm ++ "/" else norm
  if isAbs then "/" ++ norm else norm

/-- Node's `path.posix.join`: drop empty arguments, concatenate with `/`,
normalize; no arguments left means `"."`. -/
def pathJoin (parts : List String) : String :=
  let nonEmpty := parts.filter (fun s => s ≠ "")
  if nonEmpty.isEmpty then "." else pathNormalize (String.intercalate "/" nonEmpty)

/-- Resolution of a returned path against a working directory: an absolute
path denotes itself, a relative one denotes its join under the directory.
Used to state what a relative result refers to at run time. -/
def resolveAgainst (cwd : String) (p : String) : String :=
  if isAbsolutePath p then p else pathJoin [cwd, p]

/-! ## Shared types (`src/types.ts`) -/

/-- Supported content categories (`ContentType` in `types.ts`). -/
inductive ContentType
  | skills
  | agents
  | commands
  | rules
  | prompts
deriving DecidableEq, Repr

/-- The string form of a `ContentType` (its TypeScript literal). -/
def ctString : ContentType → String
  | .skills => "skills"
  | .agents => "agents"
  | .commands => "commands"
  | .rules => "rules"
  | .prompts => "prompts"

/-- Where to install: current project or user home (`InstallScope`). -/
inductive InstallScope
  | project
  | global
deriving DecidableEq, Repr

/-- How to install: symlink to canonical dir or copy files (`InstallMethod`). -/
inductive InstallMethod
  | symlink
  | copy
deriving DecidableEq, Repr

/-! ## Canonical paths (`src/agents.ts`) -/

/-- Canonical directory name, the single source of truth for AI content
(`CANONICAL_DIR` in `agents.ts`). -/
def CANONICAL_DIR : String := ".ai"

/-- JavaScript string truthiness applied to an optional string argument:
`undefined` and the empty string are falsy. -/
def jsTruthyStr : Option String → Bool
  | none => false
  | some s => s ≠ ""

/-- Model of `getCanonicalPath(contentType, name, scope, projectRoot?)` from
`agents.ts`.  `home` is the module-level `os.homedir()` capture.  The source
computes `basePath = scope === "global" ? path.join(home, CANONICAL_DIR)
: CANONICAL_DIR`, then `fullBase = projectRoot ? path.join(projectRoot,
basePath) : basePath`, then joins `fullBase`, the content type and the name. -/
def getCanonicalPath (home : String) (contentType : ContentType) (name : String)
    (scope : InstallScope) (projectRoot : Option String) : String :=
  let basePath := if scope = .global then pathJoin [home, CANONICAL_DIR] else CANONICAL_DIR
  let fullBase :=
    match projectRoot with
    | some r => if r ≠ "" then pathJoin [r, basePath] else basePath
    | none => basePath
  pathJoin [fullBase, ctString contentType, name]

/-- Lock file name constant from `lock.ts`. -/
def LOCK_FILE_NAME : String := ".skill-lock.json"

/-- Model of `getLockFilePath(scope, projectRoot?)` from `lock.ts`: global
scope is always rooted at the home directory, project scope at
`projectRoot || process.cwd()`. -/
def getLockFilePath (home cwd : String) (scope : InstallScope)
    (projectRoot : Option String) : String :=
  if scope = .global then pathJoin [home, ".ai", LOCK_FILE_NAME]
  else
    let root := match projectRoot with
      | some r => if r ≠ "" then r else cwd
      | none => cwd
    pathJoin [root, ".ai", LOCK_FILE_NAME]

/-- C1: for content type `skills`, id `foo` and a supplied project root
`/repo` (with home directory `/home/user`), the code returns
`/repo/.ai/skills/foo` for project scope as the claim states — but for
global scope it returns `/repo/home/user/.ai/skills/foo`, NOT the claimed
`/home/user/.ai/skills/foo`: `path.join(projectRoot, basePath)` concatenates
the absolute global base under the project root.  The lock store, by
contrast, roots global state at `~/.ai`, so the code contradicts its own
storage layout at this input. -/
theorem getCanonicalPath_global_projectRoot_eval :
    getCanonicalPath "/home/user" .skills "foo" .project (some "/repo")
        = "/repo/.ai/skills/foo"
      ∧ getCanonicalPath "/home/user" .skills "foo" .global (some "/repo")
        = "/repo/home/user/.ai/skills/foo"
      ∧ getCanonicalPath "/home/user" .skills "foo" .global (some "/repo")
        ≠ "/home/user/.ai/skills/foo"
      ∧ getLockFilePath "/home/user" "/repo" .global (some "/repo")
        = "/home/user/.ai/.skill-lock.json" := by
  refine ⟨by decide, by decide, by decide, by decide⟩

/-! ## JavaScript object-as-map model

Lock files store `installed` as a plain JS object keyed by `"type/id"`.
A JS object is an insertion-ordered string-keyed map: assignment to an
existing key updates it in place, assignment to a fresh key appends it, and
`delete` removes it.  We model it as an association list with exactly those
semantics. -/

/-- Read `m[k]` (first match; keys are unique in every reachable state). -/
def objGet {α : Type} (m : List (String × α)) (k : String) : Option α :=
  (m.find? (fun p => p.1 = k)).map (fun p => p.2)

/-- Write `m[k] = v`. -/
def objSet {α : Type} (m : List (String × α)) (k : String) (v : α) :
    List (String × α) :=
  if (objGet m k).isSome then
    m.map (fun p => if p.1 = k then (k, v) else p)
  else
    m ++ [(k, v)]

/-- Execute `delete m[k]`. -/
def objDelete {α : Type} (m : List (String × α)) (k : String) :
    List (String × α) :=
  m.filter (fun p => p.1 ≠ k)

theorem find?_mapUpd_self {α : Type} (m : List (String × α)) (k : String) (v : α)
    (h : (m.find? (fun p => p.1 = k)).isSome) :
    (m.map (fun p => if p.1 = k then (k, v) else p)).find? (fun p => p.1 = k)
      = some (k, v) := by
  induction m with
  | nil => simp at h
  | cons p t ih =>
    by_cases hp : p.1 = k
    · simp [List.find?_cons, if_pos hp]
    · rw [List.find?_cons, decide_eq_false hp] at h
      simp only [List.map_cons, if_neg hp, List.find?_cons, decide_eq_false hp]
      exact ih h

theorem find?_appendOne_self {α : Type} (m : List (String × α)) (k : String) (v : α)
    (h : m.find? (fun p => p.1 = k) = none) :
    (m ++ [(k, v)]).find? (fun p => p.1 = k) = some (k, v) := by
  induction m with
  | nil => simp [List.find?]
  | cons p t ih =>
    rw [List.find?_cons] at h
    by_cases hp : p.1 = k
    · rw [decide_eq_true hp] at h; exact absurd h (by simp)
    · rw [decide_eq_false hp] at h
      simp only [List.cons_append, List.find?_cons, decide_eq_false hp]
      exact ih h

theorem find?_mapUpd_ne {α : Type} (m : List (String × α)) (k k' : String) (v : α)
    (hne : k' ≠ k) :
    (m.map (fun p => if p.1 = k then (k, v) else p)).find? (fun p => p.1 = k')
      = m.find? (fun p => p.1 = k') := by
  induction m with
  | nil => simp
  | cons p t ih =>
    by_cases hp : p.1 = k
    · have hk : ¬ ((k : String) = k') := fun hh => hne hh.symm
      have hpk : ¬ (p.1 = k') := by rw [hp]; exact hk
      simp only [List.map_cons, if_pos hp, List.find?_cons, decide_eq_false hk,
        decide_eq_false hpk]
      exact ih
    · simp only [List.map_cons, if_neg hp, List.find?_cons]
      by_cases hq : p.1 = k'
      · simp [decide_eq_true hq]
      · simp only [decide_eq_false hq]
        exact ih

theorem find?_appendOne_ne {α : Type} (m : List (String × α)) (k k' : String) (v : α)
    (hne : k' ≠ k) :
    (m ++ [(k, v)]).find? (fun p => p.1 = k') = m.find? (fun p => p.1 = k') := by
  induction m with
  | nil =>
    simp only [List.nil_append, List.find?_cons, List.find?_nil,
      decide_eq_false (fun hh : (k : String) = k' => hne hh.symm)]
  | cons p t ih =>
    simp only [List.cons_append, List.find?_cons]
    by_cases hq : p.1 = k'
    · simp [decide_eq_true hq]
    · simp only [decide_eq_false hq]
      exact ih

theorem objGet_objSet_self {α : Type} (m : List (String × α)) (k : String) (v : α) :
    objGet (objSet m k v) k = some v := by
  unfold objSet
  by_cases h : (objGet m k).isSome
  · rw [if_pos h]
    have hf : (m.find? (fun p => p.1 = k)).isSome := by
      unfold objGet at h
      simpa using h
    unfold objGet
    rw [find?_mapUpd_self m k v hf]
    rfl
  · rw [if_neg h]
    have hf : m.find? (fun p => p.1 = k) = none := by
      unfold objGet at h
      rw [Option.not_isSome_iff_eq_none, Option.map_eq_none'] at h
      exact h
    unfold objGet
    rw [find?_appendOne_self m k v hf]
    rfl

theorem objGet_objSet_ne {α : Type} (m : List (String × α)) (k k' : String) (v : α)
    (hne : k' ≠ k) : objGet (objSet m k v) k' = objGet m k' := by
  unfold objSet
  by_cases h : (objGet m k).isSome
  · rw [if_pos h]
    unfold objGet
    rw [find?_mapUpd_ne m k k' v hne]
  · rw [if_neg h]
    unfold objGet
    rw [find?_appendOne_ne m k k' v hne]

/-- Membership in an updated object: an entry is the new binding or an old one. -/
theorem mem_objSet {α : Type} (m : List (String × α)) (k : String) (v : α)
    (p : String × α) (hp : p ∈ objSet m k v) : p = (k, v) ∨ p ∈ m := by
  unfold objSet at hp
  by_cases h : (objGet m k).isSome
  · rw [if_pos h] at hp
    rcases List.mem_map.mp hp with ⟨q, hq, hqe⟩
    by_cases hqk : q.1 = k
    · rw [if_pos hqk] at hqe
      exact Or.inl hqe.symm
    · rw [if_neg hqk] at hqe
      exact Or.inr (hqe ▸ hq)
  · rw [if_neg h] at hp
    rcases List.mem_append.mp hp with hm | hs
    · exact Or.inr hm
    · exact Or.inl (List.mem_singleton.mp hs)

/-- Membership after a delete: the entry was already present. -/
theorem mem_objDelete {α : Type} (m : List (String × α)) (k : String)
    (p : String × α) (hp : p ∈ objDelete m k) : p ∈ m :=
  List.mem_of_mem_filter hp

/-! ## Lock store (`src/lock.ts`)

The source reads the lock document from disk, mutates it in memory and
rewrites it in full; the disk round trip is modelled by explicit state
passing (the `LockFile` value threaded through the operations). -/

/-- Record of an installed item (`InstalledItem` in `types.ts`). -/
structure InstalledItem where
  type : ContentType
  id : String
  source : String
  hash : String
  installedAt : String
  assistants : List String
  scope : InstallScope
  method : InstallMethod
deriving DecidableEq, Repr

/-- User preferences block of a lock file (`LockFile.preferences`). -/
structure LockPreferences where
  defaultAssistants : Option (List String) := none
  defaultScope : Option InstallScope := none
  defaultMethod : Option InstallMethod := none
deriving DecidableEq, Repr

/-- Root persisted lock document (`LockFile` in `types.ts`). -/
structure LockFile where
  version : String
  lastUpdateCheck : Option String := none
  installed : List (String × InstalledItem)
  preferences : Option LockPreferences := none
deriving DecidableEq, Repr

/-- Lock file schema version (`LOCK_FILE_VERSION` in `lock.ts`). -/
def LOCK_FILE_VERSION : String := "1.0.0"

/-- Fresh empty lock file, as synthesized by `readLockFile` on a missing or
unreadable file. -/
def emptyLockFile : LockFile :=
  { version := LOCK_FILE_VERSION, installed := [] }

/-- Composite map key (`getItemKey` in `lock.ts`): the string `type/id`. -/
def getItemKey (type : ContentType) (id : String) : String :=
  ctString type ++ "/" ++ id

/-- JavaScript `Array.from(new Set(l))`: drop duplicates, keeping each
element's first occurrence in insertion order. -/
def jsSetDedup (l : List String) : List String :=
  l.foldl (fun acc x => if x ∈ acc then acc else acc ++ [x]) []

theorem jsSetDedup_go_nodup (l acc : List String) (hacc : acc.Nodup) :
    (l.foldl (fun acc x => if x ∈ acc then acc else acc ++ [x]) acc).Nodup := by
  induction l generalizing acc with
  | nil => exact hacc
  | cons x xs ih =>
    simp only [List.foldl_cons]
    by_cases hx : x ∈ acc
    · rw [if_pos hx]
      exact ih acc hacc
    · rw [if_neg hx]
      refine ih _ ?_
      simpa [List.nodup_append] using ⟨hacc, hx⟩

theorem jsSetDedup_go_mem (l acc : List String) (a : String) :
    a ∈ l.foldl (fun acc x => if x ∈ acc then acc else acc ++ [x]) acc
      ↔ a ∈ acc ∨ a ∈ l := by
  induction l generalizing acc with
  | nil => simp
  | cons x xs ih =>
    simp only [List.foldl_cons]
    by_cases hx : x ∈ acc
    · rw [if_pos hx, ih]
      constructor
      · rintro (h | h)
        · exact Or.inl h
        · exact Or.inr (List.mem_cons_of_mem x h)
      · rintro (h | h)
        · exact Or.inl h
        · rcases List.mem_cons.mp h with rfl | h
          · exact Or.inl hx
          · exact Or.inr h
    · rw [if_neg hx, ih]
      constructor
      · rintro (h | h)
        · rcases List.mem_append.mp h with h | h
          · exact Or.inl h
          · exact Or.inr (by simpa using Or.inl (List.mem_singleton.mp h))
        · exact Or.inr (List.mem_cons_of_mem x h)
      · rintro (h | h)
        · exact Or.inl (List.mem_append.mpr (Or.inl h))
        · rcases List.mem_cons.mp h with rfl | h
          · exact Or.inl (List.mem_append.mpr (Or.inr (List.mem_singleton.mpr rfl)))
          · exact Or.inr h

/-- Element characterization of `jsSetDedup`. -/
theorem mem_jsSetDedup (l : List String) (a : String) :
    a ∈ jsSetDedup l ↔ a ∈ l := by
  unfold jsSetDedup
  rw [jsSetDedup_go_mem]
  simp

/-- Deduplication produces a list without duplicates. -/
theorem jsSetDedup_nodup (l : List String) : (jsSetDedup l).Nodup :=
  jsSetDedup_go_nodup l [] List.nodup_nil

/-- Model of `updateLockFile(item, scope, projectRoot?)` from `lock.ts`,
with the read-modify-write disk round trip made explicit: read the current
document (`lockFile` here), merge the item, write back the result.  When the
key `type/id` already exists, the assistants arrays are merged through a JS
`Set` and every other field is taken from the new item (spread `...item`);
otherwise the item is stored as-is. -/
def updateLockFile (lockFile : LockFile) (item : InstalledItem) : LockFile :=
  let key := getItemKey item.type item.id
  match objGet lockFile.installed key with
  | some existing =>
    let assistants := jsSetDedup (existing.assistants ++ item.assistants)
    let merged := { item with assistants := assistants }
    { lockFile with installed := objSet lockFile.installed key merged }
  | none =>
    { lockFile with installed := objSet lockFile.installed key item }

/-- Model of `removeFromLockFile(type, id, assistantId, scope, projectRoot?)`
from `lock.ts`: filter the assistant out of the entry's list; delete the
whole entry when the list becomes empty; no entry means no change. -/
def removeFromLockFile (lockFile : LockFile) (type : ContentType) (id : String)
    (assistantId : String) : LockFile :=
  let key := getItemKey type id
  match objGet lockFile.installed key with
  | none => lockFile
  | some item =>
    let remaining := item.assistants.filter (fun a => a ≠ assistantId)
    if remaining = [] then
      { lockFile with installed := objDelete lockFile.installed key }
    else
      let shrunk := { item with assistants := remaining }
      { lockFile with installed := objSet lockFile.installed key shrunk }

/-- One mutation of the lock store. -/
inductive LockOp
  | update (item : InstalledItem)
  | remove (type : ContentType) (id : String) (assistantId : String)
deriving DecidableEq, Repr

/-- Apply one lock-store mutation. -/
def lockStep (lockFile : LockFile) : LockOp → LockFile
  | .update item => updateLockFile lockFile item
  | .remove type id assistantId => removeFromLockFile lockFile type id assistantId

/-- Apply a sequence of lock-store mutations to the empty lock file. -/
def applyLockOps (ops : List LockOp) : LockFile :=
  ops.foldl lockStep emptyLockFile

/-- Decidable check that no installed entry has an empty assistants set. -/
def noEmptyEntries (lockFile : LockFile) : Bool :=
  lockFile.installed.all (fun kv => ¬ kv.2.assistants.isEmpty)

/-- Decidable check that every `update` in a mutation sequence carries a
non-empty assistants list. -/
def opsNonemptyAssistants (ops : List LockOp) : Bool :=
  ops.all (fun op =>
    match op with
    | .update item => ¬ item.assistants.isEmpty
    | .remove _ _ _ => true)

/-- Keyed lookup succeeding means the binding is present in the object. -/
theorem objGet_mem {α : Type} (m : List (String × α)) (k : String) (v : α)
    (h : objGet m k = some v) : (k, v) ∈ m := by
  unfold objGet at h
  rcases Option.map_eq_some'.mp h with ⟨p, hfind, hv⟩
  have hmem := List.mem_of_find?_eq_some hfind
  have hk : p.1 = k := by
    have := List.find?_some hfind
    simpa using this
  have : p = (k, v) := Prod.ext hk hv
  exact this ▸ hmem

/-- An installed item recorded for assistant `claude` (first install of the
spec's merge scenario). -/
def fooClaude : InstalledItem :=
  { type := .skills, id := "foo", source := "builtin", hash := "hash1",
    installedAt := "2024-01-01T00:00:00.000Z", assistants := ["claude"],
    scope := .project, method := .symlink }

/-- The same item re-installed for assistant `cursor` (second install of the
spec's merge scenario). -/
def fooCursor : InstalledItem :=
  { type := .skills, id := "foo", source := "builtin", hash := "hash2",
    installedAt := "2024-02-02T00:00:00.000Z", assistants := ["cursor"],
    scope := .project, method := .symlink }

/-- C2: `updateLockFile` merges an existing entry by unioning the assistants
sets — the merged list holds exactly the members of both sets, without
duplicates — while every other field comes from the new item (the spread
`...item`); a key with no existing entry stores the item as-is.  Installing
`(skills, "foo")` for `claude` and then for `cursor` from the empty lock
file yields exactly one entry, keyed `skills/foo`, whose assistants list is
`["claude", "cursor"]`. -/
theorem updateLockFile_merges_assistants :
    (∀ (lockFile : LockFile) (item existing : InstalledItem),
        objGet lockFile.installed (getItemKey item.type item.id) = some existing →
          objGet (updateLockFile lockFile item).installed (getItemKey item.type item.id)
              = some { item with
                  assistants := jsSetDedup (existing.assistants ++ item.assistants) }
            ∧ (∀ a, a ∈ jsSetDedup (existing.assistants ++ item.assistants)
                ↔ a ∈ existing.assistants ∨ a ∈ item.assistants)
            ∧ (jsSetDedup (existing.assistants ++ item.assistants)).Nodup)
      ∧ (∀ (lockFile : LockFile) (item : InstalledItem),
          objGet lockFile.installed (getItemKey item.type item.id) = none →
            objGet (updateLockFile lockFile item).installed (getItemKey item.type item.id)
              = some item)
      ∧ updateLockFile (updateLockFile emptyLockFile fooClaude) fooCursor
          = { version := LOCK_FILE_VERSION,
              installed := [("skills/foo",
                { fooCursor with assistants := ["claude", "cursor"] })] } := by
  refine ⟨?_, ?_, ?_⟩
  · intro lockFile item existing h
    refine ⟨?_, ?_, jsSetDedup_nodup _⟩
    · simp only [updateLockFile, h]
      exact objGet_objSet_self _ _ _
    · intro a
      rw [mem_jsSetDedup, List.mem_append]
  · intro lockFile item h
    simp only [updateLockFile, h]
    exact objGet_objSet_self _ _ _
  · decide

/-- An installed item whose `assistants` list is empty (a value the
`InstalledItem` type admits and `installItems` can produce when called with
an empty assistants selection). -/
def emptyAssistantsItem : InstalledItem :=
  { type := .skills, id := "foo", source := "builtin", hash := "hash0",
    installedAt := "2024-01-01T00:00:00.000Z", assistants := [],
    scope := .project, method := .symlink }

/-- C3 counterexample: a single `updateLockFile` mutation starting from the
empty lock file leaves an entry whose assistants set is empty — the claimed
invariant does not hold for arbitrary `InstalledItem` arguments, because an
item with no assistants is inserted as-is. -/
theorem lockInvariant_counterexample :
    objGet (applyLockOps [LockOp.update emptyAssistantsItem]).installed "skills/foo"
        = some emptyAssistantsItem
      ∧ emptyAssistantsItem.assistants = []
      ∧ noEmptyEntries (applyLockOps [LockOp.update emptyAssistantsItem]) = false := by
  refine ⟨by decide, by decide, by decide⟩

/-- Installed-entry invariant: no entry has an empty assistants list. -/
def LockInv (lockFile : LockFile) : Prop :=
  ∀ kv ∈ lockFile.installed, kv.2.assistants ≠ []

theorem updateLockFile_preserves_inv (lockFile : LockFile) (item : InstalledItem)
    (hinv : LockInv lockFile) (hne : item.assistants ≠ []) :
    LockInv (updateLockFile lockFile item) := by
  intro kv hkv
  unfold updateLockFile at hkv
  cases hex : objGet lockFile.installed (getItemKey item.type item.id) with
  | none =>
    simp only [hex] at hkv
    rcases mem_objSet _ _ _ _ hkv with rfl | hold
    · exact hne
    · exact hinv kv hold
  | some existing =>
    simp only [hex] at hkv
    rcases mem_objSet _ _ _ _ hkv with rfl | hold
    · have hex_mem := objGet_mem _ _ _ hex
      have hex_ne : existing.assistants ≠ [] := hinv _ hex_mem
      rcases List.exists_mem_of_ne_nil _ hex_ne with ⟨a, ha⟩
      have : a ∈ jsSetDedup (existing.assistants ++ item.assistants) := by
        rw [mem_jsSetDedup, List.mem_append]
        exact Or.inl ha
      exact List.ne_nil_of_mem this
    · exact hinv kv hold

theorem removeFromLockFile_preserves_inv (lockFile : LockFile) (type : ContentType)
    (id assistantId : String) (hinv : LockInv lockFile) :
    LockInv (removeFromLockFile lockFile type id assistantId) := by
  intro kv hkv
  unfold removeFromLockFile at hkv
  cases hex : objGet lockFile.installed (getItemKey type id) with
  | none =>
    simp only [hex] at hkv
    exact hinv kv hkv
  | some item =>
    simp only [hex] at hkv
    by_cases hrem : item.assistants.filter (fun a => a ≠ assistantId) = []
    · rw [if_pos hrem] at hkv
      exact hinv kv (mem_objDelete _ _ _ hkv)
    · rw [if_neg hrem] at hkv
      rcases mem_objSet _ _ _ _ hkv with rfl | hold
      · exact hrem
      · exact hinv kv hold

theorem foldl_lockStep_inv (ops : List LockOp) (lockFile : LockFile)
    (hinv : LockInv lockFile)
    (hops : ∀ item, LockOp.update item ∈ ops → item.assistants ≠ []) :
    LockInv (ops.foldl lockStep lockFile) := by
  induction ops generalizing lockFile with
  | nil => exact hinv
  | cons op rest ih =>
    rw [List.foldl_cons]
    refine ih _ ?_ (fun item hmem => hops item (List.mem_cons_of_mem op hmem))
    cases op with
    | update item =>
      exact updateLockFile_preserves_inv lockFile item hinv
        (hops item (List.mem_cons_self _ _))
    | remove type id assistantId =>
      exact removeFromLockFile_preserves_inv lockFile type id assistantId hinv

/-- C3 (amended): starting from the empty lock file, after any sequence of
lock-store mutations in which every `updateLockFile` argument carries a
non-empty assistants list, the installed map never contains an entry whose
assistants set is empty; a removal that empties an entry's assistants list
deletes the entire entry. -/
theorem lockInvariant_no_empty_assistants (ops : List LockOp)
    (h : opsNonemptyAssistants ops = true) :
    noEmptyEntries (applyLockOps ops) = true := by
  have hops : ∀ item, LockOp.update item ∈ ops → item.assistants ≠ [] := by
    intro item hmem
    have hall := List.all_eq_true.mp h _ hmem
    simp only [opsNonemptyAssistants] at hall
    intro hcon
    rw [hcon] at hall
    simp at hall
  have hinv : LockInv (applyLockOps ops) := by
    unfold applyLockOps
    refine foldl_lockStep_inv ops emptyLockFile ?_ hops
    intro kv hkv
    simp [emptyLockFile] at hkv
  rw [noEmptyEntries, List.all_eq_true]
  intro kv hkv
  have := hinv kv hkv
  simpa [List.isEmpty_iff] using this

/-- Demonstration mutation sequence: install for claude, re-install for
cursor, then remove claude. -/
def demoLockOps : List LockOp :=
  [LockOp.update fooClaude, LockOp.update fooCursor,
   LockOp.remove .skills "foo" "claude"]

/-- C3 witness: the amended invariant theorem applied to a concrete mutation
sequence. -/
theorem lockInvariant_no_empty_assistants_witness :
    opsNonemptyAssistants demoLockOps = true
      ∧ noEmptyEntries (applyLockOps demoLockOps) = true :=
  ⟨by decide, lockInvariant_no_empty_assistants demoLockOps (by decide)⟩

/-! ## Lock file reading (`readLockFile` in `src/lock.ts`)

`readLockFile` does `JSON.parse(content) as LockFile` — a TypeScript cast
with no runtime validation — inside a try/catch whose catch returns a fresh
document.  The disk content at the lock path is abstracted by its
`JSON.parse` outcome: `none` = the file is missing (read throws),
`some none` = the file's text is not valid JSON (`JSON.parse` throws),
`some (some j)` = the text parses to the JSON document `j`. -/

/-- JSON documents (the image of `JSON.parse`). -/
inductive JsonVal
  | null
  | bool (b : Bool)
  | num (n : Int)
  | str (s : String)
  | arr (elems : List JsonVal)
  | obj (fields : List (String × JsonVal))

/-- Fresh lock document synthesized by `readLockFile`'s catch branch:
`{ version: LOCK_FILE_VERSION, installed: {} }`. -/
def freshLockJson : JsonVal :=
  .obj [("version", .str LOCK_FILE_VERSION), ("installed", .obj [])]

/-- Expected JSON document shape of a `LockFile` (the `LockFile` interface in
`types.ts`): an object with a string `version` field and an object-valued
`installed` field. -/
def isLockFileShape : JsonVal → Bool
  | .obj fields =>
    (match objGet fields "version" with
     | some (.str _) => true
     | _ => false)
    && (match objGet fields "installed" with
        | some (.obj _) => true
        | _ => false)
  | _ => false

/-- Model of `readLockFile(scope, projectRoot?)` from `lock.ts` over the
abstracted disk content at the lock path: any failure of
`fs.promises.readFile` or `JSON.parse` is caught and a fresh empty document
is returned; a successful parse is returned as-is — the `as LockFile` cast
checks nothing. -/
def readLockFile (disk : Option (Option JsonVal)) : JsonVal :=
  match disk with
  | some (some doc) => doc
  | some none => freshLockJson
  | none => freshLockJson

/-- C4 counterexample: the content `{}` is valid JSON but does not have the
expected lock document shape, yet `readLockFile` returns it unchanged
instead of the fresh empty lock file the claim requires. -/
theorem readLockFile_shape_counterexample :
    isLockFileShape (JsonVal.obj []) = false
      ∧ readLockFile (some (some (JsonVal.obj []))) = JsonVal.obj []
      ∧ JsonVal.obj [] ≠ freshLockJson := by
  refine ⟨rfl, rfl, ?_⟩
  intro h
  simp [freshLockJson] at h

/-- C4 (amended): `readLockFile` never throws; it returns the fresh document
`{ version: "1.0.0", installed: {} }` when the lock file is missing or its
content is not valid JSON, and returns any successfully parsed JSON document
as-is — the expected document shape is not validated. -/
theorem readLockFile_total_fallback :
    readLockFile none = freshLockJson
      ∧ readLockFile (some none) = freshLockJson
      ∧ ∀ doc : JsonVal, readLockFile (some (some doc)) = doc :=
  ⟨rfl, rfl, fun _ => rfl⟩

/-! ## Uninstall (`uninstallItem` in `src/install.ts`)

`uninstallItem` computes the canonical path and calls
`fs.promises.rm(path, { recursive: true, force: true })` inside a try/catch
returning a boolean.  The filesystem is abstracted by which paths exist and
whether `rm` fails at a path (for example with a permission error); with
`force: true`, `rm` on a missing path resolves successfully. -/

/-- Filesystem abstraction for removal: which paths exist, and the error
`rm` raises at a path (`none` = the call resolves). -/
structure RmFs where
  pathExists : String → Bool
  rmError : String → Option String

/-- Model of `fs.promises.rm(p, { recursive: true, force: true })`: with
`force`, a missing path is not an error; only a real failure (such as
permission denied) rejects. -/
def rmForce (fs : RmFs) (p : String) : Except String Unit :=
  match fs.rmError p with
  | some e => .error e
  | none => .ok ()

/-- Model of `uninstallItem(item, assistant, scope, projectRoot)` from
`install.ts`: remove the canonical directory, `true` on success, `false`
when the removal rejects; the assistant argument is unused by the code. -/
def uninstallItem (fs : RmFs) (home : String) (itemType : ContentType)
    (itemId : String) (scope : InstallScope) (projectRoot : String) : Bool :=
  match rmForce fs (getCanonicalPath home itemType itemId scope (some projectRoot)) with
  | .ok _ => true
  | .error _ => false

/-- Filesystem in which nothing exists and removal never fails. -/
def rmFsAllAbsent : RmFs :=
  { pathExists := fun _ => false, rmError := fun _ => none }

/-- C5 counterexample: when the item's canonical directory is already absent
(and removal raises no error), `uninstallItem` returns `true`, not the
`false` the claim states — `force: true` makes `rm` succeed on a missing
path, so "already absent" is reported as success, unlike "permission
denied". -/
theorem uninstallItem_absent_counterexample :
    rmFsAllAbsent.pathExists
        (getCanonicalPath "/home/user" .skills "foo" .project (some "/repo")) = false
      ∧ uninstallItem rmFsAllAbsent "/home/user" .skills "foo" .project "/repo" = true := by
  exact ⟨rfl, rfl⟩

/-- C5 (amended): `uninstallItem` always returns a boolean and never throws;
it returns `false` exactly when the removal call fails (for example,
permission denied), while an already-absent canonical directory is treated
as success (`true`) because `rm` is invoked with `force: true` — absence and
failure are NOT reported identically. -/
theorem uninstallItem_false_iff_rm_fails (fs : RmFs) (home : String)
    (itemType : ContentType) (itemId : String) (scope : InstallScope)
    (projectRoot : String) :
    uninstallItem fs home itemType itemId scope projectRoot
      = (fs.rmError
          (getCanonicalPath home itemType itemId scope (some projectRoot))).isNone := by
  unfold uninstallItem rmForce
  cases fs.rmError (getCanonicalPath home itemType itemId scope (some projectRoot)) with
  | none => rfl
  | some e => rfl

/-! ## Assistant registry (`src/agents.ts`) -/

/-- Static descriptor of one AI assistant (`AssistantConfig` in `types.ts`).
The `detectInstalled` capability probe is an asynchronous filesystem/PATH
check with no bearing on path resolution and is omitted from the model. -/
structure AssistantConfig where
  name : String
  id : String
  description : String
  paths : ContentType → Option String
  globalPaths : ContentType → Option String
  fileExtension : Option String := none
  isUniversal : Bool := false
  contextFile : Option String := none

/-- Model of `getContentPath(assistant, contentType, scope, projectRoot?)`
from `agents.ts`: global scope returns the assistant's global path table
entry verbatim; project scope returns the project-relative entry, joined
under `projectRoot` when that argument is truthy (JS: `projectRoot ?
path.join(projectRoot, relativePath) : relativePath`). -/
def getContentPath (assistant : AssistantConfig) (contentType : ContentType)
    (scope : InstallScope) (projectRoot : Option String) : Option String :=
  if scope = .global then assistant.globalPaths contentType
  else
    match assistant.paths contentType with
    | none => none
    | some relativePath =>
      if jsTruthyStr projectRoot then
        match projectRoot with
        | some r => some (pathJoin [r, relativePath])
        | none => some relativePath
      else some relativePath

/-- The registry's Claude Code entry (`agents.ts` lines 79–96) instantiated
at home directory `/home/user` with `CLAUDE_CONFIG_DIR` unset, so
`claudeHome = /home/user/.claude`. -/
def claudeAssistant : AssistantConfig :=
  { name := "Claude Code"
    id := "claude"
    description := "Anthropic's Claude AI assistant for coding"
    contextFile := some "CLAUDE.md"
    paths := fun t =>
      match t with
      | .skills => some ".claude/skills"
      | .agents => some ".claude/agents"
      | .commands => some ".claude/commands"
      | _ => none
    globalPaths := fun t =>
      match t with
      | .skills => some (pathJoin ["/home/user/.claude", "skills"])
      | .agents => some (pathJoin ["/home/user/.claude", "agents"])
      | .commands => some (pathJoin ["/home/user/.claude", "commands"])
      | _ => none }

/-- C9: `getContentPath` with global scope returns the assistant's
`globalPaths` entry verbatim (`undefined` when the type is unsupported),
whatever project root is passed; with project scope and a supplied
(non-empty) project root it returns the `paths` entry joined under that
root, and `undefined` when no project path is defined; with the project
root omitted it returns the relative `paths` entry itself, which — resolved
against the process's current working directory, the default the claim
describes — denotes exactly the join of the working directory and the
relative path. -/
theorem getContentPath_resolution (assistant : AssistantConfig)
    (contentType : ContentType) (root cwd relativePath : String)
    (hroot : root ≠ "")
    (hrel : assistant.paths contentType = some relativePath)
    (habs : isAbsolutePath relativePath = false) :
    (∀ r : Option String,
        getContentPath assistant contentType .global r
          = assistant.globalPaths contentType)
      ∧ getContentPath assistant contentType .project (some root)
          = some (pathJoin [root, relativePath])
      ∧ getContentPath assistant contentType .project none = some relativePath
      ∧ (getContentPath assistant contentType .project none).map (resolveAgainst cwd)
          = some (pathJoin [cwd, relativePath])
      ∧ (∀ ct : ContentType, assistant.paths ct = none →
          ∀ r : Option String, getContentPath assistant ct .project r = none) := by
  have h2 : getContentPath assistant contentType .project none = some relativePath := by
    simp [getContentPath, hrel, jsTruthyStr]
  refine ⟨fun r => rfl, ?_, h2, ?_, ?_⟩
  · simp [getContentPath, hrel, jsTruthyStr, hroot]
  · rw [h2, Option.map_some']
    rw [resolveAgainst, habs]
    simp
  · intro ct hct r
    simp [getContentPath, hct]

/-- C9 witness: the resolution contract applied to the registry's Claude
Code entry for skills at project root `/repo` and working directory `/cwd`. -/
theorem getContentPath_resolution_witness :
    getContentPath claudeAssistant .skills .global none
        = some "/home/user/.claude/skills"
      ∧ getContentPath claudeAssistant .skills .project (some "/repo")
        = some (pathJoin ["/repo", ".claude/skills"])
      ∧ getContentPath claudeAssistant .skills .project none
        = some ".claude/skills"
      ∧ getContentPath claudeAssistant .prompts .project (some "/repo") = none := by
  have h := getContentPath_resolution claudeAssistant .skills "/repo" "/cwd"
    ".claude/skills" (by decide) (by rfl) (by decide)
  refine ⟨(h.1 none).trans (by decide), h.2.1, h.2.2.1, h.2.2.2.2 .prompts rfl (some "/repo")⟩

/-! ## Content hash (`getContentHash` in `src/install.ts`)

The source builds the template-literal string
`` `${content.length}-${content.charCodeAt(0)}-${content.charCodeAt(content.length - 1)}` ``
and returns the first 12 characters of its base64 encoding
(`Buffer.from(hash).toString("base64").slice(0, 12)`). -/

/-- JavaScript `String.prototype.charCodeAt`: the code unit at the index, or
`NaN` (modelled as `none`) when the index is out of range. -/
def charCodeAt (s : String) (i : Int) : Option Nat :=
  if h : 0 ≤ i ∧ i.toNat < s.data.length then
    some (s.data.get ⟨i.toNat, h.2⟩).toNat
  else none

/-- Decimal rendering of a `charCodeAt` result as template interpolation
prints it: a number, or the string `NaN`. -/
def codeStr : Option Nat → String
  | some n => toString n
  | none => "NaN"

/-- Base64 alphabet. -/
def base64Alphabet : List Char :=
  "ABCDEFGHIJKLMNOPQRSTUVWXYZabcdefghijklmnopqrstuvwxyz0123456789+/".data

/-- Character of the base64 alphabet at a 6-bit index. -/
def base64Char (n : Nat) : Char :=
  base64Alphabet.getD n 'A'

/-- Standard base64 encoding of a byte list (RFC 4648, with padding), as
`Buffer.prototype.toString("base64")` produces. -/
def base64Encode : List Nat → String
  | [] => ""
  | [b1] =>
    String.mk [base64Char (b1 / 4), base64Char (b1 % 4 * 16)] ++ "=="
  | [b1, b2] =>
    String.mk [base64Char (b1 / 4), base64Char (b1 % 4 * 16 + b2 / 16),
      base64Char (b2 % 16 * 4)] ++ "="
  | b1 :: b2 :: b3 :: rest =>
    String.mk [base64Char (b1 / 4), base64Char (b1 % 4 * 16 + b2 / 16),
      base64Char (b2 % 16 * 4 + b3 / 64), base64Char (b3 % 64)]
      ++ base64Encode rest

/-- Bytes of the hash string (`Buffer.from`): the string is plain ASCII
(decimal digits, `-`, and possibly `NaN`), so each character is one byte. -/
def strBytes (s : String) : List Nat :=
  s.data.map Char.toNat

/-- Model of `getContentHash(filePath)` from `install.ts`, applied to the
file's text: a fingerprint from the content's length, first character code
and last character code only, base64-encoded and truncated to 12
characters. -/
def getContentHash (content : String) : String :=
  let hash := toString content.length ++ "-" ++ codeStr (charCodeAt content 0)
    ++ "-" ++ codeStr (charCodeAt content ((content.length : Int) - 1))
  String.mk ((base64Encode (strBytes hash)).data.take 12)

/-! ## Installer (`src/install.ts`)

`installItems` loops over the items; each `installToAi` call either copies
the item's directory tree into the canonical location and yields the
canonical path, or fails with an error message.  That filesystem boundary is
abstracted by an environment giving each item's outcome, the item's template
file content (read back for hashing) and the clock; the lock store round
trip is the explicit `LockFile` state. -/

/-- One discoverable template unit (`CatalogItem` in `types.ts`). -/
structure CatalogItem where
  id : String
  name : String := ""
  description : String := ""
  type : ContentType
  category : Option String := none
  tags : Option (List String) := none
  path : String := ""
  content : Option String := none
deriving DecidableEq, Repr

/-- Result of installing one item (`InstallResult` in `types.ts`); the
`assistant` field is the representative `assistants[0]`, which JavaScript
leaves `undefined` for an empty selection. -/
structure InstallResult where
  success : Bool
  item : CatalogItem
  assistant : Option AssistantConfig
  path : String
  error : Option String := none

/-- Summary of a batch installation (`InstallSummary` in `types.ts`). -/
structure InstallSummary where
  total : Nat
  successful : Nat
  failed : Nat
  results : List InstallResult

/-- Environment abstracting the filesystem and clock effects of one
`installItems` call: the outcome of `installToAi` per item (canonical path
or caught error message), the text of each item's template file, and the
`new Date().toISOString()` timestamp. -/
structure InstallEnv where
  outcome : CatalogItem → Except String String
  fileContent : CatalogItem → String
  now : String

/-- Loop body of `installItems`: process the items in order, recording one
result each and updating the lock state after every successful install. -/
def installItemsGo (env : InstallEnv) (assistantIds : List String)
    (representative : Option AssistantConfig) (scope : InstallScope)
    (lockFile : LockFile) : List CatalogItem → List InstallResult × LockFile
  | [] => ([], lockFile)
  | item :: rest =>
    match env.outcome item with
    | .error e =>
      let (results, lockFile) := installItemsGo env assistantIds representative
        scope lockFile rest
      ({ success := false, item := item, assistant := representative,
          path := "", error := some e } :: results, lockFile)
    | .ok canonicalItemPath =>
      let installedItem : InstalledItem :=
        { type := item.type, id := item.id, source := "builtin",
          hash := getContentHash (env.fileContent item),
          installedAt := env.now, assistants := assistantIds,
          scope := scope, method := .symlink }
      let (results, lockFile) := installItemsGo env assistantIds representative
        scope (updateLockFile lockFile installedItem) rest
      ({ success := true, item := item, assistant := representative,
          path := canonicalItemPath, error := none } :: results, lockFile)

/-- Model of `installItems(items, assistants, scope, _method, projectRoot)`
from `install.ts`: per-item install with per-item results, lock updates on
success only, and the `{total, successful, failed, results}` summary. -/
def installItems (items : List CatalogItem) (assistants : List AssistantConfig)
    (scope : InstallScope) (env : InstallEnv) (lockFile : LockFile) :
    InstallSummary × LockFile :=
  let assistantIds := assistants.map (fun a => a.id)
  let representative := assistants.head?
  let (results, lockFile) := installItemsGo env assistantIds representative
    scope lockFile items
  let successful := (results.filter (fun r => r.success)).length
  ({ total := results.length, successful := successful,
     failed := results.length - successful, results := results }, lockFile)

/-- The per-item result `installItems` records, given the item's
`installToAi` outcome. -/
theorem installItemsGo_results (env : InstallEnv) (assistantIds : List String)
    (representative : Option AssistantConfig) (scope : InstallScope) :
    ∀ (items : List CatalogItem) (lockFile : LockFile),
      (installItemsGo env assistantIds representative scope lockFile items).1
        = items.map (fun item =>
            match env.outcome item with
            | .ok p =>
                { success := true, item := item, assistant := representative,
                  path := p, error := none }
            | .error e =>
                { success := false, item := item, assistant := representative,
                  path := "", error := some e })
  | [], _ => rfl
  | item :: rest, lockFile => by
    cases hout : env.outcome item with
    | error e =>
      simp only [installItemsGo, hout, List.map_cons]
      rw [installItemsGo_results env assistantIds representative scope rest lockFile]
    | ok p =>
      simp only [installItemsGo, hout, List.map_cons]
      rw [installItemsGo_results env assistantIds representative scope rest _]

/-- C7: a failing item is recorded as a failed result carrying the caught
error message and processing continues; the summary satisfies
`total = |items|`, `successful` = number of succeeded results,
`failed = total - successful`, and `results` has exactly one entry per
input item, in input order, each with the content the loop records. -/
theorem installItems_partial_failure_summary (items : List CatalogItem)
    (assistants : List AssistantConfig) (scope : InstallScope)
    (env : InstallEnv) (lockFile : LockFile) :
    (installItems items assistants scope env lockFile).1.results
        = items.map (fun item =>
            match env.outcome item with
            | .ok p =>
                { success := true, item := item, assistant := assistants.head?,
                  path := p, error := none }
            | .error e =>
                { success := false, item := item, assistant := assistants.head?,
                  path := "", error := some e })
      ∧ (installItems items assistants scope env lockFile).1.total = items.length
      ∧ (installItems items assistants scope env lockFile).1.successful
          = (((installItems items assistants scope env lockFile).1.results).filter
              (fun r => r.success)).length
      ∧ (installItems items assistants scope env lockFile).1.failed
          = (installItems items assistants scope env lockFile).1.total
            - (installItems items assistants scope env lockFile).1.successful := by
  have hres : (installItems items assistants scope env lockFile).1.results
      = items.map (fun item =>
          match env.outcome item with
          | .ok p =>
              { success := true, item := item, assistant := assistants.head?,
                path := p, error := none }
          | .error e =>
              { success := false, item := item, assistant := assistants.head?,
                path := "", error := some e }) := by
    simp only [installItems]
    exact installItemsGo_results env (assistants.map (fun a => a.id))
      assistants.head? scope items lockFile
  refine ⟨hres, ?_, ?_, ?_⟩
  · show (installItemsGo env (assistants.map (fun a => a.id))
        assistants.head? scope lockFile items).1.length = items.length
    rw [installItemsGo_results]
    exact List.length_map _ _
  · rfl
  · rfl

/-- C10: the stored fingerprint depends only on the content's length, first
character code and last character code — contents agreeing on those three
values hash identically — and the lock entry `installItems` writes for a
successfully installed item carries exactly `getContentHash` of the item's
file content. -/
theorem getContentHash_boundary_only :
    (∀ c1 c2 : String, c1.length = c2.length →
        charCodeAt c1 0 = charCodeAt c2 0 →
        charCodeAt c1 ((c1.length : Int) - 1) = charCodeAt c2 ((c2.length : Int) - 1) →
        getContentHash c1 = getContentHash c2)
      ∧ (∀ (item : CatalogItem) (assistants : List AssistantConfig)
          (scope : InstallScope) (env : InstallEnv) (lockFile : LockFile) (p : String),
          env.outcome item = .ok p →
            (objGet ((installItems [item] assistants scope env lockFile).2).installed
                (getItemKey item.type item.id)).map (fun e => e.hash)
              = some (getContentHash (env.fileContent item))) := by
  constructor
  · intro c1 c2 hlen h0 hlast
    simp only [getContentHash]
    rw [hlast, h0, hlen]
  · intro item assistants scope env lockFile p hok
    have hlock : (installItems [item] assistants scope env lockFile).2
        = updateLockFile lockFile
            { type := item.type, id := item.id, source := "builtin",
              hash := getContentHash (env.fileContent item),
              installedAt := env.now,
              assistants := assistants.map (fun a => a.id), scope := scope,
              method := .symlink } := by
      simp only [installItems, installItemsGo, hok]
    rw [hlock]
    cases hex : objGet lockFile.installed (getItemKey item.type item.id) with
    | none =>
      simp only [updateLockFile, hex]
      rw [objGet_objSet_self]
      rfl
    | some existing =>
      simp only [updateLockFile, hex]
      rw [objGet_objSet_self]
      rfl

/-- C10 witness: two different contents with equal length, first character
and last character receive the same hash. -/
theorem getContentHash_boundary_only_witness :
    getContentHash "abc" = getContentHash "axc" ∧ "abc" ≠ "axc" :=
  ⟨getContentHash_boundary_only.1 "abc" "axc" rfl (by decide) (by decide), by decide⟩

/-! ## Bridge files (`writeBridgeFiles` in `src/bridges.ts`)

The on-disk file store is abstracted by a path-to-content association list;
`fs.promises.access` succeeds exactly when the path is present, `mkdir` of
parent directories has no observable effect in this view, and `writeFile`
binds the path. -/

/-- One generated bridge file (`BridgeFile` in `bridges.ts`). -/
structure BridgeFile where
  editorId : String
  filePath : String
  content : String
  description : String
deriving DecidableEq, Repr

/-- Read a file's content, `none` when the path does not exist. -/
def fsRead (fs : List (String × String)) (p : String) : Option String :=
  objGet fs p

/-- The `fs.promises.access` probe: does the path exist? -/
def fsExistsB (fs : List (String × String)) (p : String) : Bool :=
  (fsRead fs p).isSome

/-- The `fs.promises.writeFile` effect. -/
def fsWrite (fs : List (String × String)) (p c : String) : List (String × String) :=
  objSet fs p c

/-- Outcome of one `writeBridgeFiles` call. -/
structure WriteBridgeOutcome where
  written : List String
  skipped : List String
  fs : List (String × String)

/-- Model of `writeBridgeFiles(files, projectRoot, overwrite)` from
`bridges.ts`: for each file in order, compute
`path.join(projectRoot, file.filePath)`; without the overwrite flag an
existing path is skipped (recorded by relative path), otherwise the content
is written and the relative path recorded as written. -/
def writeBridgeFiles (files : List BridgeFile) (projectRoot : String)
    (overwrite : Bool) (fs : List (String × String)) : WriteBridgeOutcome :=
  match files with
  | [] => { written := [], skipped := [], fs := fs }
  | file :: rest =>
    let fullPath := pathJoin [projectRoot, file.filePath]
    if ¬ overwrite ∧ fsExistsB fs fullPath then
      let out := writeBridgeFiles rest projectRoot overwrite fs
      { out with skipped := file.filePath :: out.skipped }
    else
      let out := writeBridgeFiles rest projectRoot overwrite
        (fsWrite fs fullPath file.content)
      { out with written := file.filePath :: out.written }

/-- Existing files are never touched by a non-overwrite call: the final
store agrees with the initial one on every initially-present path. -/
theorem writeBridgeFiles_frame (files : List BridgeFile) (projectRoot : String)
    (fs : List (String × String)) (p : String) (hp : fsExistsB fs p = true) :
    fsRead (writeBridgeFiles files projectRoot false fs).fs p = fsRead fs p := by
  induction files generalizing fs with
  | nil => rfl
  | cons file rest ih =>
    simp only [writeBridgeFiles]
    by_cases hex : fsExistsB fs (pathJoin [projectRoot, file.filePath]) = true
    · rw [if_pos (by simp [hex])]
      exact ih fs hp
    · rw [if_neg (by simp [hex])]
      have hne : p ≠ pathJoin [projectRoot, file.filePath] := by
        intro hcon
        rw [hcon] at hp
        exact hex hp
      have hstep : fsRead (fsWrite fs (pathJoin [projectRoot, file.filePath])
          file.content) p = fsRead fs p := objGet_objSet_ne _ _ _ _ hne
      have hp2 : fsExistsB (fsWrite fs (pathJoin [projectRoot, file.filePath])
          file.content) p = true := by
        unfold fsExistsB
        unfold fsRead at hstep ⊢
        rw [hstep]
        exact hp
      rw [ih _ hp2]
      exact hstep

theorem writeBridgeFiles_lists (files : List BridgeFile) (projectRoot : String)
    (fs : List (String × String))
    (hnd : (files.map (fun f => pathJoin [projectRoot, f.filePath])).Nodup) :
    (writeBridgeFiles files projectRoot false fs).written
        = (files.filter (fun f =>
            !fsExistsB fs (pathJoin [projectRoot, f.filePath]))).map (fun f => f.filePath)
      ∧ (writeBridgeFiles files projectRoot false fs).skipped
        = (files.filter (fun f =>
            fsExistsB fs (pathJoin [projectRoot, f.filePath]))).map (fun f => f.filePath) := by
  induction files generalizing fs with
  | nil => exact ⟨rfl, rfl⟩
  | cons file rest ih =>
    rw [List.map_cons, List.nodup_cons] at hnd
    have hstep : ∀ g ∈ rest,
        fsExistsB (fsWrite fs (pathJoin [projectRoot, file.filePath]) file.content)
            (pathJoin [projectRoot, g.filePath])
          = fsExistsB fs (pathJoin [projectRoot, g.filePath]) := by
      intro g hg
      have hne : pathJoin [projectRoot, g.filePath]
          ≠ pathJoin [projectRoot, file.filePath] := by
        intro hcon
        exact hnd.1 (hcon ▸ List.mem_map_of_mem _ hg)
      unfold fsExistsB fsRead fsWrite
      rw [objGet_objSet_ne _ _ _ _ hne]
    simp only [writeBridgeFiles]
    by_cases hex : fsExistsB fs (pathJoin [projectRoot, file.filePath]) = true
    · rw [if_pos (by simp [hex])]
      have h := ih fs hnd.2
      refine ⟨?_, ?_⟩
      · rw [h.1, List.filter_cons]
        simp [hex]
      · rw [h.2, List.filter_cons]
        simp [hex]
    · rw [if_neg (by simp [hex])]
      have hexf : fsExistsB fs (pathJoin [projectRoot, file.filePath]) = false :=
        Bool.not_eq_true _ ▸ eq_false_of_ne_true hex
      have h := ih (fsWrite fs (pathJoin [projectRoot, file.filePath]) file.content) hnd.2
      have hw : (rest.filter (fun g =>
            !fsExistsB (fsWrite fs (pathJoin [projectRoot, file.filePath]) file.content)
              (pathJoin [projectRoot, g.filePath])))
          = (rest.filter (fun g =>
            !fsExistsB fs (pathJoin [projectRoot, g.filePath]))) := by
        apply List.filter_congr
        intro g hg
        rw [hstep g hg]
      have hs : (rest.filter (fun g =>
            fsExistsB (fsWrite fs (pathJoin [projectRoot, file.filePath]) file.content)
              (pathJoin [projectRoot, g.filePath])))
          = (rest.filter (fun g =>
            fsExistsB fs (pathJoin [projectRoot, g.filePath]))) := by
        apply List.filter_congr
        intro g hg
        rw [hstep g hg]
      refine ⟨?_, ?_⟩
      · rw [List.filter_cons]
        simp only [hexf, Bool.not_false, if_pos]
        rw [List.map_cons]
        have := h.1
        rw [hw] at this
        rw [this]
      · rw [List.filter_cons]
        simp only [hexf, if_neg]
        have := h.2
        rw [hs] at this
        rw [this]
        simp

theorem writeBridgeFiles_writes_new (files : List BridgeFile) (projectRoot : String)
    (fs : List (String × String))
    (hnd : (files.map (fun f => pathJoin [projectRoot, f.filePath])).Nodup) :
    ∀ f ∈ files, fsExistsB fs (pathJoin [projectRoot, f.filePath]) = false →
      fsRead (writeBridgeFiles files projectRoot false fs).fs
        (pathJoin [projectRoot, f.filePath]) = some f.content := by
  induction files generalizing fs with
  | nil => intro f hf; exact absurd hf (List.not_mem_nil f)
  | cons file rest ih =>
    rw [List.map_cons, List.nodup_cons] at hnd
    intro f hf hnex
    rcases List.mem_cons.mp hf with rfl | hfr
    · simp only [writeBridgeFiles]
      rw [if_neg (by simp [hnex])]
      have hpres : fsExistsB (fsWrite fs (pathJoin [projectRoot, f.filePath]) f.content)
          (pathJoin [projectRoot, f.filePath]) = true := by
        unfold fsExistsB fsRead fsWrite
        rw [objGet_objSet_self]
        rfl
      have := writeBridgeFiles_frame rest projectRoot
        (fsWrite fs (pathJoin [projectRoot, f.filePath]) f.content)
        (pathJoin [projectRoot, f.filePath]) hpres
      rw [this]
      unfold fsRead fsWrite
      exact objGet_objSet_self _ _ _
    · have hne : pathJoin [projectRoot, f.filePath]
          ≠ pathJoin [projectRoot, file.filePath] := by
        intro hcon
        exact hnd.1 (hcon ▸ List.mem_map_of_mem _ hfr)
      simp only [writeBridgeFiles]
      by_cases hex : fsExistsB fs (pathJoin [projectRoot, file.filePath]) = true
      · rw [if_pos (by simp [hex])]
        exact ih fs hnd.2 f hfr hnex
      · rw [if_neg (by simp [hex])]
        have hnex' : fsExistsB
            (fsWrite fs (pathJoin [projectRoot, file.filePath]) file.content)
            (pathJoin [projectRoot, f.filePath]) = false := by
          unfold fsExistsB fsRead fsWrite
          rw [objGet_objSet_ne _ _ _ _ hne]
          exact hnex
        exact ih _ hnd.2 f hfr hnex'

/-- C8: with the overwrite flag unset and pairwise-distinct target paths,
every input file whose target path already exists is left untouched on disk
and reported in `skipped`; every file whose path does not exist is written
with its content and reported in `written`; together the two lists cover
each input file's path exactly once (they are the complementary filters of
the input list, so they partition the input paths). -/
theorem writeBridgeFiles_no_clobber (files : List BridgeFile) (projectRoot : String)
    (fs : List (String × String))
    (hnd : (files.map (fun f => pathJoin [projectRoot, f.filePath])).Nodup) :
    (writeBridgeFiles files projectRoot false fs).written
        = (files.filter (fun f =>
            !fsExistsB fs (pathJoin [projectRoot, f.filePath]))).map (fun f => f.filePath)
      ∧ (writeBridgeFiles files projectRoot false fs).skipped
        = (files.filter (fun f =>
            fsExistsB fs (pathJoin [projectRoot, f.filePath]))).map (fun f => f.filePath)
      ∧ (∀ p, fsExistsB fs p = true →
          fsRead (writeBridgeFiles files projectRoot false fs).fs p = fsRead fs p)
      ∧ (∀ f ∈ files, fsExistsB fs (pathJoin [projectRoot, f.filePath]) = false →
          fsRead (writeBridgeFiles files projectRoot false fs).fs
            (pathJoin [projectRoot, f.filePath]) = some f.content) := by
  refine ⟨(writeBridgeFiles_lists files projectRoot fs hnd).1,
    (writeBridgeFiles_lists files projectRoot fs hnd).2,
    fun p hp => writeBridgeFiles_frame files projectRoot fs p hp,
    writeBridgeFiles_writes_new files projectRoot fs hnd⟩

/-- Claude bridge file of the no-clobber scenario. -/
def demoBridgeClaude : BridgeFile :=
  { editorId := "claude", filePath := "CLAUDE.md",
    content := "# CLAUDE.md\n", description := "Claude Code context file" }

/-- Universal bridge file of the no-clobber scenario. -/
def demoBridgeAgents : BridgeFile :=
  { editorId := "universal", filePath := "AGENTS.md",
    content := "# AGENTS.md\n", description := "Universal agents context file" }

/-- Initial file store of the no-clobber scenario: the user has customized
`CLAUDE.md`; `AGENTS.md` does not exist yet. -/
def demoBridgeFs : List (String × String) :=
  [("/repo/CLAUDE.md", "user customized")]

/-- C8 witness: the no-clobber contract applied to a concrete second run —
the customized `CLAUDE.md` is skipped and untouched, `AGENTS.md` is
written. -/
theorem writeBridgeFiles_no_clobber_witness :
    (writeBridgeFiles [demoBridgeClaude, demoBridgeAgents] "/repo" false
        demoBridgeFs).written = ["AGENTS.md"]
      ∧ (writeBridgeFiles [demoBridgeClaude, demoBridgeAgents] "/repo" false
          demoBridgeFs).skipped = ["CLAUDE.md"]
      ∧ fsRead (writeBridgeFiles [demoBridgeClaude, demoBridgeAgents] "/repo" false
          demoBridgeFs).fs "/repo/CLAUDE.md" = some "user customized" := by
  have h := writeBridgeFiles_no_clobber [demoBridgeClaude, demoBridgeAgents] "/repo"
    demoBridgeFs (by decide)
  exact ⟨h.1.trans (by decide), h.2.1.trans (by decide),
    (h.2.2.1 "/repo/CLAUDE.md" (by decide)).trans (by decide)⟩

/-! ## Frontmatter validation (`validateFrontmatter` in `src/catalog.ts`)

The parser in `catalog.ts` produces frontmatter values that are either
strings or lists of strings; the validator reads `name` and `description`
through the TypeScript cast `as string | undefined` (list values are
represented below through their JavaScript string coercion — elements joined
by commas).  Regular-expression tests (`KEBAB_CASE_RE`, `XML_BRACKETS_RE`),
`toLowerCase` and `includes` are modelled character-exactly for ASCII. -/

/-- Severity of a validation issue (`ValidationSeverity` in `types.ts`). -/
inductive ValidationSeverity
  | error
  | warning
deriving DecidableEq, Repr

/-- A single frontmatter validation issue (`ValidationIssue` in `types.ts`). -/
structure ValidationIssue where
  field : String
  severity : ValidationSeverity
  message : String
deriving DecidableEq, Repr

/-- Result of validating frontmatter (`ValidationResult` in `types.ts`). -/
structure ValidationResult where
  valid : Bool
  issues : List ValidationIssue
deriving DecidableEq, Repr

/-- A frontmatter value as the restricted YAML parser produces it. -/
inductive FMValue
  | str (s : String)
  | strList (l : List String)
deriving DecidableEq, Repr

/-- A parsed frontmatter mapping (`Record<string, unknown>`). -/
def Frontmatter := List (String × FMValue)

/-- JavaScript string coercion of a frontmatter value (`String(x)`): arrays
join their elements with commas. -/
def fmToStr : FMValue → String
  | .str s => s
  | .strList l => String.intercalate "," l

/-- JavaScript truthiness of a possibly-missing frontmatter value:
`undefined` and the empty string are falsy, arrays are always truthy. -/
def jsTruthyFM : Option FMValue → Bool
  | none => false
  | some (.str s) => s ≠ ""
  | some (.strList _) => true

/-- Split a character list at a separator character. -/
def splitChar (sep : Char) : List Char → List Char → List String
  | cur, [] => [String.mk cur.reverse]
  | cur, c :: cs =>
    if c = sep then String.mk cur.reverse :: splitChar sep [] cs
    else splitChar sep (c :: cur) cs

/-- Lowercase ASCII letter or digit (the character class `[a-z0-9]`). -/
def isLowerAlnum (c : Char) : Bool :=
  ('a' ≤ c ∧ c ≤ 'z') ∨ ('0' ≤ c ∧ c ≤ '9')

/-- The regular expression `^[a-z0-9]+(-[a-z0-9]+)*$` (`KEBAB_CASE_RE`):
hyphen-separated groups, each a non-empty run of lowercase alphanumerics. -/
def kebabCaseTest (s : String) : Bool :=
  (splitChar '-' [] s.data).all (fun part => part ≠ "" && part.data.all isLowerAlnum)

/-- Reserved name beginnings (`RESERVED_PREFIXES` in `catalog.ts`). -/
def reservedStarts : List String := ["claude", "anthropic"]

/-- Cons-list core of `String.prototype.startsWith`. -/
def strStartsWithAux : List Char → List Char → Bool
  | _, [] => true
  | [], _ :: _ => false
  | a :: as, b :: bs => a = b && strStartsWithAux as bs

/-- JavaScript `s.startsWith(pre)`. -/
def strStartsWith (s pre : String) : Bool :=
  strStartsWithAux s.data pre.data

/-- The regular expression `[<>]` (`XML_BRACKETS_RE`) applied by `.test`. -/
def hasXmlBrackets (s : String) : Bool :=
  s.data.any (fun c => c = '<' ∨ c = '>')

/-- ASCII lowering of one character, as `toLowerCase` acts on ASCII. -/
def charLowerAscii (c : Char) : Char :=
  if 'A' ≤ c ∧ c ≤ 'Z' then Char.ofNat (c.toNat + 32) else c

/-- JavaScript `s.toLowerCase()` on ASCII text. -/
def toLowerAscii (s : String) : String :=
  String.mk (s.data.map charLowerAscii)

/-- Substring occurrence check over character lists. -/
def listHasInfix (needle : List Char) : List Char → Bool
  | [] => needle.isEmpty
  | c :: cs => strStartsWithAux (c :: cs) needle || listHasInfix needle cs

/-- JavaScript `s.includes(sub)`. -/
def strIncludes (s sub : String) : Bool :=
  listHasInfix sub.data s.data

/-- Trigger phrases the description is scanned for (`triggerPhrases` in
`catalog.ts`). -/
def triggerPhrases : List String :=
  ["use when", "use for", "use if", "trigger", "activate when",
   "asks about", "asks to", "asks for"]

/-- Model of `validateFrontmatter(frontmatter, folderId?)` from
`catalog.ts`: the issue list is accumulated in source order (name checks,
description checks, the XML-bracket sweep over the remaining string fields,
then the category and tags recommendations) and `valid` is the negation of
`issues.some(i => i.severity === "error")`. -/
def validateFrontmatter (frontmatter : Frontmatter)
    (folderId : Option String) : ValidationResult :=
  let nameVal := objGet frontmatter "name"
  let nameIssues :=
    if jsTruthyFM nameVal = false then
      [{ field := "name", severity := ValidationSeverity.error,
         message := "Missing required field: name" }]
    else
      let name := fmToStr (nameVal.getD (.str ""))
      (if kebabCaseTest name = false then
        [{ field := "name", severity := ValidationSeverity.error,
           message := "Name must be kebab-case (got \"" ++ name
             ++ "\"). Use lowercase letters, numbers, and hyphens only." }]
       else []) ++
      (if reservedStarts.any (fun p => strStartsWith name p) then
        [{ field := "name", severity := ValidationSeverity.error,
           message := "Name must not start with reserved prefix (\"claude\" or \"anthropic\")." }]
       else []) ++
      (match folderId with
       | some fid =>
         if fid ≠ "" ∧ name ≠ fid then
           [{ field := "name", severity := ValidationSeverity.warning,
              message := "Name \"" ++ name ++ "\" does not match folder name \""
                ++ fid ++ "\". They should match." }]
         else []
       | none => [])
  let descVal := objGet frontmatter "description"
  let descIssues :=
    if jsTruthyFM descVal = false then
      [{ field := "description", severity := ValidationSeverity.error,
         message := "Missing required field: description" }]
    else
      let description := fmToStr (descVal.getD (.str ""))
      (if description.length > 1024 then
        [{ field := "description", severity := ValidationSeverity.error,
           message := "Description exceeds 1024 characters (got "
             ++ toString description.length ++ ")." }]
       else []) ++
      (if hasXmlBrackets description then
        [{ field := "description", severity := ValidationSeverity.error,
           message := "Description must not contain XML angle brackets (< >)." }]
       else []) ++
      (if (triggerPhrases.any (fun phrase =>
            strIncludes (toLowerAscii description) phrase)) = false then
        [{ field := "description", severity := ValidationSeverity.warning,
           message := "Description should include trigger conditions (e.g., \"Use when user asks about...\")." }]
       else [])
  let xmlIssues := frontmatter.filterMap (fun kv =>
    if kv.1 = "description" then none
    else
      match kv.2 with
      | .str v =>
        if hasXmlBrackets v then
          some { field := kv.1, severity := ValidationSeverity.error,
                 message := "Field \"" ++ kv.1
                   ++ "\" must not contain XML angle brackets (< >)." }
        else none
      | .strList _ => none)
  let categoryIssues :=
    if jsTruthyFM (objGet frontmatter "category") = false then
      [{ field := "category", severity := ValidationSeverity.warning,
         message := "Missing recommended field: category. Add a category for better organization." }]
    else []
  let tagsIssues :=
    if jsTruthyFM (objGet frontmatter "tags") = false then
      [{ field := "tags", severity := ValidationSeverity.warning,
         message := "Missing recommended field: tags. Add tags for improved discoverability." }]
    else []
  let issues := nameIssues ++ descIssues ++ xmlIssues ++ categoryIssues ++ tagsIssues
  let hasErrors := issues.any (fun i => i.severity = ValidationSeverity.error)
  { valid := !hasErrors, issues := issues }

/-- Boolean negation of an error scan is exactly "every issue is a warning". -/
theorem no_error_scan_iff (l : List ValidationIssue) :
    (!l.any (fun i => i.severity = ValidationSeverity.error)) = true
      ↔ ∀ i ∈ l, i.severity ≠ ValidationSeverity.error := by
  rw [Bool.not_eq_true']
  constructor
  · intro h i hi hcon
    have ht : l.any (fun i => i.severity = ValidationSeverity.error) = true :=
      List.any_eq_true.mpr ⟨i, hi, by exact decide_eq_true hcon⟩
    rw [h] at ht
    exact Bool.false_ne_true ht
  · intro h
    cases hany : l.any (fun i => i.severity = ValidationSeverity.error) with
    | false => rfl
    | true =>
      rcases List.any_eq_true.mp hany with ⟨i, hi, hip⟩
      exact absurd (of_decide_eq_true hip) (h i hi)

/-- Fully-populated valid frontmatter (the spec's validation example). -/
def demoFullFrontmatter : Frontmatter :=
  [("name", .str "my-skill"),
   ("description", .str "Does X and Y. Use when user asks about Z."),
   ("category", .str "frontend"),
   ("tags", .strList ["a", "b"])]

/-- Frontmatter omitting only `category` and `tags`. -/
def demoNoCatTagsFrontmatter : Frontmatter :=
  [("name", .str "my-skill"),
   ("description", .str "Does X. Use when asked about Y.")]

/-- C6: `validateFrontmatter` is a pure function of its arguments whose
`valid` flag is true exactly when the issue list contains no error-severity
issue — warnings never affect validity.  On fully-populated frontmatter it
returns `valid` with zero issues; omitting only `category` and `tags`
produces exactly two issues, both warnings, with `valid` still true. -/
theorem validateFrontmatter_valid_iff_no_errors :
    (∀ (frontmatter : Frontmatter) (folderId : Option String),
        (validateFrontmatter frontmatter folderId).valid = true
          ↔ ∀ issue ∈ (validateFrontmatter frontmatter folderId).issues,
              issue.severity ≠ ValidationSeverity.error)
      ∧ validateFrontmatter demoFullFrontmatter (some "my-skill")
          = { valid := true, issues := [] }
      ∧ (validateFrontmatter demoNoCatTagsFrontmatter none).issues.length = 2
      ∧ (validateFrontmatter demoNoCatTagsFrontmatter none).issues.all
          (fun i => i.severity = ValidationSeverity.warning) = true
      ∧ (validateFrontmatter demoNoCatTagsFrontmatter none).valid = true := by
  refine ⟨?_, by decide, by decide, by decide, by decide⟩
  intro frontmatter folderId
  exact no_error_scan_iff _
